import Mathlib

/-!
# Verification of the google-calendar-service credential & availability core

Shallow embedding of the credential security / lifecycle subsystem and the
availability computation of the `google-calendar-service` app:

* `Avail`    — `CalendarService._calculate_free_slots`
               (`app/api/calendar/service.py`)
* `StateTok` — `OAuthStateManager.generate_state` / `validate_state`
               (`app/core/security.py`)
* `Vault`    — `TokenEncryptor.encrypt` / `decrypt` (`app/core/security.py`)
* `Lifecycle`— `AuthService.handle_callback` / `revoke_connection`
               (`app/api/auth/service.py`) and
               `CalendarService._get_calendar_client`
               (`app/api/calendar/service.py`) over the `TokenRepository`
               operations (`app/db/repositories.py`)
-/

namespace Avail

/-- One busy/free slot.  In the Python service the two fields are `"HH:MM"`
strings; lexicographic comparison of zero-padded `"HH:MM"` strings is
order-isomorphic to comparison of minutes-since-midnight, so wall-clock times
are embedded as `Nat` minutes.  The Python field `end` is a Lean keyword and is
rendered `«end»`. -/
structure AvailabilitySlot where
  start : Nat
  «end» : Nat
deriving DecidableEq, Repr

/-- The cursor walk inside `_calculate_free_slots`: for each busy interval
(visited in sorted order), if `busy.start > current_start` emit the free slot
`[current_start, busy.start)`, then `current_start = max(current_start,
busy.end)`.  Returns the emitted slots and the final cursor. -/
def walk : List AvailabilitySlot → Nat → List AvailabilitySlot × Nat
  | [], c => ([], c)
  | b :: rest, c =>
    let emitted := if c < b.start then [AvailabilitySlot.mk c b.start] else []
    let r := walk rest (max c b.«end»)
    (emitted ++ r.1, r.2)

/-- Sort key used by `sorted(busy_slots, key=lambda x: x.start)`. -/
def byStart (a b : AvailabilitySlot) : Prop := a.start ≤ b.start

instance : DecidableRel byStart := fun a b => Nat.decLe _ _

instance : IsTotal AvailabilitySlot byStart := ⟨fun a b => Nat.le_total _ _⟩

instance : IsTrans AvailabilitySlot byStart := ⟨fun _ _ _ h h' => Nat.le_trans h h'⟩

/-- `CalendarService._calculate_free_slots` (service.py:420-449): empty busy
list returns the whole window; otherwise sort the busy slots by start
(Python's `sorted` is a stable sort; stability does not affect any property
proved here), run the cursor walk from `work_start`, and append a final slot
`[cursor, work_end)` if the cursor is still before `work_end`. -/
def calculate_free_slots (busy_slots : List AvailabilitySlot)
    (work_start work_end : Nat) : List AvailabilitySlot :=
  if busy_slots = [] then [⟨work_start, work_end⟩]
  else
    let sorted_busy := busy_slots.insertionSort byStart
    let r := walk sorted_busy work_start
    r.1 ++ (if r.2 < work_end then [⟨r.2, work_end⟩] else [])

/-- Membership of a time `t` in some slot of a slot list (`[start, end)`
half-open, per the glossary). -/
def covers (l : List AvailabilitySlot) (t : Nat) : Prop :=
  ∃ s ∈ l, s.start ≤ t ∧ t < s.«end»

instance (l : List AvailabilitySlot) (t : Nat) : Decidable (covers l t) := by
  unfold covers; infer_instance

end Avail

namespace Avail

theorem walk_nil (c : Nat) : walk [] c = ([], c) := rfl

theorem walk_cons (b : AvailabilitySlot) (rest : List AvailabilitySlot) (c : Nat) :
    walk (b :: rest) c =
      ((if c < b.start then [AvailabilitySlot.mk c b.start] else []) ++
        (walk rest (max c b.«end»)).1, (walk rest (max c b.«end»)).2) := rfl

/-- The cursor never moves backwards. -/
theorem walk_cursor_le (l : List AvailabilitySlot) (c : Nat) : c ≤ (walk l c).2 := by
  induction l generalizing c with
  | nil => simp [walk]
  | cons b rest ih =>
    rw [walk_cons]
    exact le_trans (le_max_left _ _) (ih (max c b.«end»))

/-- The final cursor is at or past the end of every busy interval walked. -/
theorem walk_cursor_ends (l : List AvailabilitySlot) (c : Nat) :
    ∀ b ∈ l, b.«end» ≤ (walk l c).2 := by
  induction l generalizing c with
  | nil => simp
  | cons b rest ih =>
    intro x hx
    rw [walk_cons]
    rcases List.mem_cons.mp hx with h | h
    · subst h; exact le_trans (le_max_right _ _) (walk_cursor_le rest _)
    · exact ih _ x h

/-- The final cursor is the initial one or the end of some walked interval. -/
theorem walk_cursor_cases (l : List AvailabilitySlot) (c : Nat) :
    (walk l c).2 = c ∨ ∃ b ∈ l, (walk l c).2 = b.«end» := by
  induction l generalizing c with
  | nil => left; rfl
  | cons b rest ih =>
    rw [walk_cons]
    rcases ih (max c b.«end») with h | ⟨x, hx, hx'⟩
    · rcases max_choice c b.«end» with hm | hm
      · left; rw [h, hm]
      · right; exact ⟨b, List.mem_cons_self _ _, h.trans hm⟩
    · right; exact ⟨x, List.mem_cons_of_mem _ hx, hx'⟩

/-- Every slot the walk emits ends at the start of one of the busy intervals. -/
theorem walk_slot_end (l : List AvailabilitySlot) (c : Nat) :
    ∀ s ∈ (walk l c).1, ∃ b ∈ l, s.«end» = b.start := by
  induction l generalizing c with
  | nil => simp [walk]
  | cons b rest ih =>
    intro s hs
    rw [walk_cons] at hs
    rcases List.mem_append.mp hs with h | h
    · refine ⟨b, List.mem_cons_self _ _, ?_⟩
      split at h
      · rcases List.mem_singleton.mp h with rfl; rfl
      · simp at h
    · obtain ⟨x, hx, hx'⟩ := ih (max c b.«end») s h
      exact ⟨x, List.mem_cons_of_mem _ hx, hx'⟩

/-- Well-formedness of the emitted slots: each is nonempty, starts at or after
the initial cursor, ends at or before the final cursor, and they are pairwise
ordered and non-overlapping. -/
theorem walk_slots_wf (l : List AvailabilitySlot) (c : Nat)
    (hlt : ∀ b ∈ l, b.start < b.«end») :
    (∀ s ∈ (walk l c).1, c ≤ s.start ∧ s.start < s.«end» ∧ s.«end» ≤ (walk l c).2) ∧
      (walk l c).1.Pairwise (fun s₁ s₂ => s₁.«end» ≤ s₂.start) := by
  induction l generalizing c with
  | nil => simp [walk]
  | cons b rest ih =>
    have hb : b.start < b.«end» := hlt b (List.mem_cons_self _ _)
    have hrest : ∀ x ∈ rest, x.start < x.«end» := fun x hx => hlt x (List.mem_cons_of_mem _ hx)
    obtain ⟨ihb, ihp⟩ := ih (max c b.«end») hrest
    rw [walk_cons]
    constructor
    · intro s hs
      rcases List.mem_append.mp hs with h | h
      · split at h
        · rename_i hc
          rcases List.mem_singleton.mp h with rfl
          refine ⟨le_refl _, hc, ?_⟩
          calc b.start ≤ b.«end» := le_of_lt hb
            _ ≤ max c b.«end» := le_max_right _ _
            _ ≤ (walk rest (max c b.«end»)).2 := walk_cursor_le _ _
        · simp at h
      · obtain ⟨h1, h2, h3⟩ := ihb s h
        exact ⟨le_trans (le_max_left _ _) h1, h2, h3⟩
    · rw [List.pairwise_append]
      refine ⟨?_, ihp, ?_⟩
      · split
        · exact List.pairwise_singleton _ _
        · exact List.Pairwise.nil
      · intro s₁ h₁ s₂ h₂
        split at h₁
        · rcases List.mem_singleton.mp h₁ with rfl
          have := (ihb s₂ h₂).1
          calc b.start ≤ b.«end» := le_of_lt hb
            _ ≤ max c b.«end» := le_max_right _ _
            _ ≤ s₂.start := this
        · simp at h₁

end Avail

namespace Avail

theorem covers_append (l₁ l₂ : List AvailabilitySlot) (t : Nat) :
    covers (l₁ ++ l₂) t ↔ covers l₁ t ∨ covers l₂ t := by
  simp [covers, List.mem_append, or_and_right, exists_or]

theorem covers_singleton (s : AvailabilitySlot) (t : Nat) :
    covers [s] t ↔ s.start ≤ t ∧ t < s.«end» := by
  simp [covers]

/-- On a start-sorted list of nonempty busy intervals, the walk's slots cover
exactly the times between the initial and final cursor that lie in no busy
interval. -/
theorem walk_covers (l : List AvailabilitySlot) (c : Nat)
    (hsorted : l.Sorted byStart) (hlt : ∀ b ∈ l, b.start < b.«end») (t : Nat) :
    covers (walk l c).1 t ↔
      c ≤ t ∧ t < (walk l c).2 ∧ ∀ b ∈ l, ¬(b.start ≤ t ∧ t < b.«end») := by
  induction l generalizing c with
  | nil =>
    simp only [walk, covers, List.not_mem_nil, false_and, exists_false,
      false_iff, List.not_mem_nil]
    simp only [List.not_mem_nil, false_implies, forall_const, and_true]
    omega
  | cons b rest ih =>
    have hb : b.start < b.«end» := hlt b (List.mem_cons_self _ _)
    have hrest : ∀ x ∈ rest, x.start < x.«end» :=
      fun x hx => hlt x (List.mem_cons_of_mem _ hx)
    have hble : ∀ x ∈ rest, b.start ≤ x.start :=
      fun x hx => (List.rel_of_sorted_cons hsorted x hx : b.start ≤ x.start)
    have ihr := ih (max c b.«end») hsorted.of_cons hrest
    rw [walk_cons]
    by_cases hc : c < b.start
    · simp only [if_pos hc]
      rw [covers_append, covers_singleton, ihr]
      dsimp only
      have hcle := walk_cursor_le rest (max c b.«end»)
      constructor
      · rintro (⟨h1, h2⟩ | ⟨h1, h2, h3⟩)
        · refine ⟨h1, by omega, ?_⟩
          intro x hx
          rcases List.mem_cons.mp hx with rfl | hx
          · omega
          · have := hble x hx; omega
        · refine ⟨by omega, h2, ?_⟩
          intro x hx
          rcases List.mem_cons.mp hx with rfl | hx
          · omega
          · exact h3 x hx
      · rintro ⟨h1, h2, h3⟩
        by_cases ht : t < b.start
        · exact Or.inl ⟨h1, ht⟩
        · have hnb := h3 b (List.mem_cons_self _ _)
          exact Or.inr ⟨by omega, h2, fun x hx => h3 x (List.mem_cons_of_mem _ hx)⟩
    · simp only [if_neg hc, List.nil_append]
      rw [ihr]
      constructor
      · rintro ⟨h1, h2, h3⟩
        refine ⟨by omega, h2, ?_⟩
        intro x hx
        rcases List.mem_cons.mp hx with rfl | hx
        · omega
        · exact h3 x hx
      · rintro ⟨h1, h2, h3⟩
        have hnb := h3 b (List.mem_cons_self _ _)
        exact ⟨by omega, h2, fun x hx => h3 x (List.mem_cons_of_mem _ hx)⟩

end Avail

namespace Avail

/-- `_calculate_free_slots` on a nonempty busy list, with the branch taken. -/
theorem calculate_free_slots_ne (busy : List AvailabilitySlot) (ws we : Nat)
    (hbe : busy ≠ []) :
    calculate_free_slots busy ws we =
      (walk (busy.insertionSort byStart) ws).1 ++
        (if (walk (busy.insertionSort byStart) ws).2 < we then
          [⟨(walk (busy.insertionSort byStart) ws).2, we⟩] else []) := by
  simp [calculate_free_slots, hbe]

/-- **C1** (amended): given busy intervals that are nonempty (`start < end`)
and start no later than `work_end`, `_calculate_free_slots` returns the
ordered, non-overlapping complement of the union of the busy intervals within
the working window: a time is covered by a returned free slot exactly when it
lies in `[work_start, work_end)` and in no busy interval; the returned slots
are pairwise ordered and non-overlapping; and an empty busy list yields the
single slot `[work_start, work_end]`. -/
theorem calculate_free_slots_spec (busy : List AvailabilitySlot) (ws we : Nat)
    (hlt : ∀ b ∈ busy, b.start < b.«end»)
    (hle : ∀ b ∈ busy, b.start ≤ we) :
    (∀ t, covers (calculate_free_slots busy ws we) t ↔
        ws ≤ t ∧ t < we ∧ ∀ b ∈ busy, ¬(b.start ≤ t ∧ t < b.«end»)) ∧
      (calculate_free_slots busy ws we).Pairwise
        (fun s₁ s₂ => s₁.«end» ≤ s₂.start) ∧
      (busy = [] → calculate_free_slots busy ws we = [⟨ws, we⟩]) := by
  by_cases hbe : busy = []
  · subst hbe
    refine ⟨?_, ?_, fun _ => rfl⟩
    · intro t
      simp [calculate_free_slots, covers]
    · simp [calculate_free_slots]
  · have hsor : (busy.insertionSort byStart).Sorted byStart :=
      List.sorted_insertionSort byStart busy
    have hmem : ∀ x : AvailabilitySlot,
        x ∈ busy.insertionSort byStart ↔ x ∈ busy := fun x =>
      List.mem_insertionSort byStart
    have hltS : ∀ b ∈ busy.insertionSort byStart, b.start < b.«end» :=
      fun b hb => hlt b ((hmem b).mp hb)
    have hleS : ∀ b ∈ busy.insertionSort byStart, b.start ≤ we :=
      fun b hb => hle b ((hmem b).mp hb)
    obtain ⟨hwf, hpair⟩ := walk_slots_wf (busy.insertionSort byStart) ws hltS
    rw [calculate_free_slots_ne busy ws we hbe]
    refine ⟨?_, ?_, fun h => absurd h hbe⟩
    · intro t
      rw [covers_append, walk_covers _ ws hsor hltS]
      constructor
      · rintro (⟨h1, h2, h3⟩ | h)
        · refine ⟨h1, ?_, fun b hb => h3 b ((hmem b).mpr hb)⟩
          by_contra hwe
          rcases walk_cursor_cases (busy.insertionSort byStart) ws with hc | ⟨b, hb, hc⟩
          · omega
          · have hb1 := hleS b hb
            have hnb := h3 b hb
            omega
        · split at h
          · rw [covers_singleton] at h
            dsimp only at h
            rename_i hcw
            have h0 := walk_cursor_le (busy.insertionSort byStart) ws
            have hends := walk_cursor_ends (busy.insertionSort byStart) ws
            refine ⟨by omega, by omega, ?_⟩
            intro b hb
            have := hends b ((hmem b).mpr hb)
            omega
          · simp [covers] at h
      · rintro ⟨h1, h2, h3⟩
        by_cases ht : t < (walk (busy.insertionSort byStart) ws).2
        · exact Or.inl ⟨h1, ht, fun b hb => h3 b ((hmem b).mp hb)⟩
        · right
          have hcw : (walk (busy.insertionSort byStart) ws).2 < we := by omega
          rw [if_pos hcw, covers_singleton]
          dsimp only
          omega
    · rw [List.pairwise_append]
      refine ⟨hpair, ?_, ?_⟩
      · split
        · exact List.pairwise_singleton _ _
        · exact List.Pairwise.nil
      · intro s₁ h₁ s₂ h₂
        split at h₂
        · rcases List.mem_singleton.mp h₂ with rfl
          exact (hwf s₁ h₁).2.2
        · simp at h₂

end Avail

namespace Avail

/-- **C1** (counterexample to the claim as stated): the busy interval
`19:00–20:00` (minutes `1140–1200`) satisfies `start < end` and lies within
one day, yet with working window `09:00–18:00` (`540–1080`) the code returns
the single slot `[540, 1140)`, which covers `1100` (`18:20`) — a time outside
the window — so the output is not the complement of the busy intervals within
the window. -/
theorem calculate_free_slots_claim_false :
    ¬ (covers (calculate_free_slots [⟨1140, 1200⟩] 540 1080) 1100 ↔
        540 ≤ 1100 ∧ 1100 < 1080 ∧
          ∀ b ∈ [AvailabilitySlot.mk 1140 1200],
            ¬(b.start ≤ 1100 ∧ 1100 < b.«end»)) := by
  decide

/-- Witness for `calculate_free_slots_spec`: busy `10:00–11:00` within window
`09:00–18:00`. -/
theorem calculate_free_slots_spec_witness :
    (∀ b ∈ [AvailabilitySlot.mk 600 660], b.start < b.«end») ∧
      (∀ b ∈ [AvailabilitySlot.mk 600 660], b.start ≤ 1080) ∧
      ((∀ t, covers (calculate_free_slots [⟨600, 660⟩] 540 1080) t ↔
          540 ≤ t ∧ t < 1080 ∧
            ∀ b ∈ [AvailabilitySlot.mk 600 660],
              ¬(b.start ≤ t ∧ t < b.«end»)) ∧
        (calculate_free_slots [⟨600, 660⟩] 540 1080).Pairwise
          (fun s₁ s₂ => s₁.«end» ≤ s₂.start) ∧
        (([AvailabilitySlot.mk 600 660] : List AvailabilitySlot) = [] →
          calculate_free_slots [⟨600, 660⟩] 540 1080 = [⟨540, 1080⟩])) :=
  ⟨by decide, by decide,
    calculate_free_slots_spec [⟨600, 660⟩] 540 1080 (by decide) (by decide)⟩

end Avail

namespace StateTok

/-- Decimal digit character for `d ≤ 9`, as produced by Python `str(int)`. -/
def digitChar (d : Nat) : Char :=
  match d with
  | 0 => '0' | 1 => '1' | 2 => '2' | 3 => '3' | 4 => '4'
  | 5 => '5' | 6 => '6' | 7 => '7' | 8 => '8' | _ => '9'

/-- Helper for `natToDec`: fuel-indexed digit extraction (structural
recursion, so concrete tokens evaluate inside `decide`). -/
def natToDecAux : Nat → Nat → List Char → List Char
  | 0, _, acc => acc
  | fuel + 1, n, acc =>
    if n < 10 then digitChar (n % 10) :: acc
    else natToDecAux fuel (n / 10) (digitChar (n % 10) :: acc)

/-- Python `str(n)` for a natural number: big-endian decimal digits.
Timestamps in the service are `int(datetime.now(timezone.utc).timestamp())`,
always non-negative. -/
def natToDec (n : Nat) : List Char := natToDecAux (n + 1) n []

def isDigit (c : Char) : Bool := 48 ≤ c.toNat && c.toNat ≤ 57

/-- Python `int(s)` restricted to plain non-negative decimal digit strings
(the only shape `generate_state` produces; on any string it cannot parse,
`int` raises and the surrounding `try` in `validate_state` returns `None`). -/
def parseNat? (s : List Char) : Option Nat :=
  if s ≠ [] ∧ s.all isDigit then
    some (s.foldl (fun acc c => 10 * acc + (c.toNat - 48)) 0)
  else none

/-- Python `state.rsplit(".", 1)` when it yields two parts: split at the last
dot.  `none` models the one-part result when no dot is present, which
`validate_state` rejects through its `len(parts) != 2` check. -/
def rsplitDot : List Char → Option (List Char × List Char)
  | [] => none
  | c :: rest =>
    match rsplitDot rest with
    | some (p, sig) => some (c :: p, sig)
    | none => if c = '.' then some ([], rest) else none

/-- `OAuthStateManager.generate_state` (security.py:98-112): build the payload
`{random}.{user_id}.{timestamp}` and append `.{signature}`.  The HMAC-SHA256
signing function `_sign` and the `secrets.token_urlsafe(16)` random part are
parameters of the embedding; `_sign` returns a hex-digest prefix and the
random part is URL-safe base64, so neither ever contains a dot. -/
def generate_state (sign : List Char → List Char)
    (random_part user_id : List Char) (timestamp : Nat) : List Char :=
  let payload := random_part ++ '.' :: user_id ++ '.' :: natToDec timestamp
  payload ++ '.' :: sign payload

/-- `OAuthStateManager.validate_state` (security.py:114-146): split off the
signature at the last dot (reject a dotless string), compare it with the
recomputed signature over the payload (`hmac.compare_digest` — constant-time,
semantically equality), split the payload on dots and require exactly three
parts, parse the timestamp (a parse failure raises and is caught, yielding
`None`), reject if `now - timestamp > ttl_seconds`, else return the user id.
Subtraction is over `Int`, as in Python. -/
def validate_state (sign : List Char → List Char) (ttl_seconds : Nat)
    (now : Nat) (state : List Char) : Option (List Char) :=
  match rsplitDot state with
  | none => none
  | some (payload, signature) =>
    if signature = sign payload then
      match payload.splitOn '.' with
      | [_, user_id, timestamp_str] =>
        match parseNat? timestamp_str with
        | none => none
        | some timestamp =>
          if (now : Int) - (timestamp : Int) > (ttl_seconds : Int) then none
          else some user_id
      | _ => none
    else none

theorem rsplitDot_of_no_dot (s : List Char) (h : '.' ∉ s) :
    rsplitDot s = none := by
  induction s with
  | nil => rfl
  | cons c rest ih =>
    have hc : c ≠ '.' := fun hc => h (hc ▸ List.mem_cons_self _ _)
    have hr : '.' ∉ rest := fun hr => h (List.mem_cons_of_mem _ hr)
    simp [rsplitDot, ih hr, hc]

theorem rsplitDot_append (payload sig : List Char) (h : '.' ∉ sig) :
    rsplitDot (payload ++ '.' :: sig) = some (payload, sig) := by
  induction payload with
  | nil => simp [rsplitDot, rsplitDot_of_no_dot sig h]
  | cons c p ih => simp [rsplitDot, ih]

theorem digitChar_isDigit (d : Nat) (h : d < 10) : isDigit (digitChar d) = true := by
  interval_cases d <;> decide

theorem digitChar_toNat (d : Nat) (h : d < 10) : (digitChar d).toNat = 48 + d := by
  interval_cases d <;> decide

theorem digitChar_ne_dot (d : Nat) : digitChar d ≠ '.' := by
  unfold digitChar
  split <;> decide

theorem natToDecAux_eq (fuel : Nat) : ∀ (n : Nat) (acc : List Char),
    n ≠ 0 → n ≤ fuel →
    natToDecAux fuel n acc = ((Nat.digits 10 n).reverse).map digitChar ++ acc := by
  induction fuel with
  | zero => intro n acc hn hf; omega
  | succ fuel ih =>
    intro n acc hn hf
    rw [natToDecAux]
    by_cases h10 : n < 10
    · rw [if_pos h10,
        Nat.digits_def' (by norm_num : (1 : ℕ) < 10) (Nat.pos_of_ne_zero hn),
        Nat.div_eq_of_lt h10]
      simp
    · rw [if_neg h10, ih (n / 10) _ (by omega) (by omega),
        Nat.digits_def' (by norm_num : (1 : ℕ) < 10) (Nat.pos_of_ne_zero hn)]
      simp

theorem natToDec_eq (n : Nat) :
    natToDec n =
      if n = 0 then ['0'] else ((Nat.digits 10 n).reverse).map digitChar := by
  unfold natToDec
  by_cases h : n = 0
  · subst h; rw [if_pos rfl]; rfl
  · rw [if_neg h, natToDecAux_eq _ _ _ h (by omega), List.append_nil]

theorem natToDec_ne_nil (n : Nat) : natToDec n ≠ [] := by
  rw [natToDec_eq]
  split
  · simp
  · simp [Nat.digits_ne_nil_iff_ne_zero, *]

theorem natToDec_all_digits (n : Nat) : ∀ c ∈ natToDec n, isDigit c = true := by
  rw [natToDec_eq]
  split
  · intro c hc; rcases List.mem_singleton.mp hc with rfl; decide
  · intro c hc
    rcases List.mem_map.mp hc with ⟨d, hd, rfl⟩
    exact digitChar_isDigit d
      (Nat.digits_lt_base (by norm_num) (List.mem_reverse.mp hd))

theorem natToDec_no_dot (n : Nat) : '.' ∉ natToDec n := by
  intro h
  have := natToDec_all_digits n '.' h
  simp [isDigit] at this

end StateTok

namespace StateTok

theorem foldl_digits (ds : List Nat) (a : Nat) :
    ds.foldl (fun acc d => 10 * acc + d) a =
      a * 10 ^ ds.length + Nat.ofDigits 10 ds.reverse := by
  induction ds generalizing a with
  | nil => simp [Nat.ofDigits]
  | cons d ds ih =>
    simp only [List.foldl_cons, List.length_cons, List.reverse_cons]
    rw [ih, Nat.ofDigits_append]
    simp only [Nat.ofDigits_singleton, List.length_reverse]
    ring

theorem foldl_map_digitChar (ds : List Nat) (h : ∀ d ∈ ds, d < 10) (a : Nat) :
    (ds.map digitChar).foldl (fun acc c => 10 * acc + (c.toNat - 48)) a =
      ds.foldl (fun acc d => 10 * acc + d) a := by
  induction ds generalizing a with
  | nil => rfl
  | cons d ds ih =>
    simp only [List.map_cons, List.foldl_cons]
    rw [digitChar_toNat d (h d (List.mem_cons_self _ _)), Nat.add_sub_cancel_left]
    exact ih (fun x hx => h x (List.mem_cons_of_mem _ hx)) _

/-- Python `int(str(n)) == n` for the canonical decimal rendering. -/
theorem parseNat_natToDec (n : Nat) : parseNat? (natToDec n) = some n := by
  unfold parseNat?
  rw [if_pos ⟨natToDec_ne_nil n,
    by simpa [List.all_eq_true] using natToDec_all_digits n⟩]
  congr 1
  rw [natToDec_eq]
  split
  · rename_i h0
    subst h0
    decide
  · rw [foldl_map_digitChar _
      (fun d hd => Nat.digits_lt_base (by norm_num) (List.mem_reverse.mp hd)) 0,
      foldl_digits]
    simp [Nat.ofDigits_digits]

/-- Splitting `a.b.c` on dots yields exactly `[a, b, c]` when none of the
fields contains a dot. -/
theorem splitOn_three (a b c : List Char)
    (ha : '.' ∉ a) (hb : '.' ∉ b) (hc : '.' ∉ c) :
    (a ++ '.' :: (b ++ '.' :: c)).splitOn '.' = [a, b, c] := by
  have pa : ∀ x ∈ a, ¬((x == '.') = true) :=
    fun x hx h => ha (beq_iff_eq.mp h ▸ hx)
  have pb : ∀ x ∈ b, ¬((x == '.') = true) :=
    fun x hx h => hb (beq_iff_eq.mp h ▸ hx)
  have pc : ∀ x ∈ c, ¬((x == '.') = true) :=
    fun x hx h => hc (beq_iff_eq.mp h ▸ hx)
  simp only [List.splitOn]
  rw [List.splitOnP_first (· == '.') a pa '.' (by simp),
    List.splitOnP_first (· == '.') b pb '.' (by simp),
    List.splitOnP_eq_single (· == '.') c pc]

end StateTok

namespace StateTok

/-- Validation of a freshly generated state reduces to the TTL check. -/
theorem validate_generate_eq (sign : List Char → List Char)
    (hsig : ∀ p, '.' ∉ sign p) (rand user : List Char)
    (hrand : '.' ∉ rand) (huser : '.' ∉ user) (ts ttl now : Nat) :
    validate_state sign ttl now (generate_state sign rand user ts) =
      if (now : Int) - (ts : Int) > (ttl : Int) then none else some user := by
  unfold generate_state validate_state
  rw [rsplitDot_append _ _ (hsig _)]
  dsimp only
  rw [if_pos rfl]
  simp only [List.append_assoc, List.cons_append]
  rw [splitOn_three rand user (natToDec ts) hrand huser (natToDec_no_dot ts)]
  dsimp only
  rw [parseNat_natToDec]

/-- **C3** (amended): for every user id that does not contain the `.`
separator, validating a state token at or within TTL of its issuance time
returns that user id: `validate_state(generate_state(u)) == u`.  The signing
function and random part are arbitrary dot-free strings (HMAC hex digests and
`token_urlsafe` output never contain dots). -/
theorem verify_issue_roundtrip (sign : List Char → List Char)
    (hsig : ∀ p, '.' ∉ sign p) (rand user : List Char)
    (hrand : '.' ∉ rand) (huser : '.' ∉ user) (ts ttl now : Nat)
    (h : (now : Int) - (ts : Int) ≤ (ttl : Int)) :
    validate_state sign ttl now (generate_state sign rand user ts) =
      some user := by
  rw [validate_generate_eq sign hsig rand user hrand huser ts ttl now,
    if_neg (by omega)]

/-- **C3** (counterexample to the claim as stated): for the user id `"a.b"`
(containing the separator), validating immediately after issuing returns
`None` rather than the user id, because the payload splits into four
dot-separated fields and the `len(payload_parts) != 3` check rejects it.
The signing function is irrelevant to this failure; a constant dot-free
signer exhibits it. -/
theorem verify_issue_claim_false :
    validate_state (fun _ => ['s']) 600 5
        (generate_state (fun _ => ['s']) ['r'] ['a', '.', 'b'] 5) = none := by
  decide

/-- The constant signer `fun _ => "s"` used by the concrete witnesses is
dot-free. -/
theorem constSig_no_dot (p : List Char) :
    '.' ∉ (fun _ : List Char => ['s']) p := by
  show '.' ∉ (['s'] : List Char)
  decide

/-- Witness for `verify_issue_roundtrip` at user id `"u"`, issuance time 5,
validation time 5, TTL 600. -/
theorem verify_issue_roundtrip_witness :
    (∀ p : List Char, '.' ∉ (fun _ : List Char => ['s']) p) ∧
      ('.' ∉ ['r']) ∧ ('.' ∉ ['u']) ∧
      (((5 : Nat) : Int) - ((5 : Nat) : Int) ≤ ((600 : Nat) : Int)) ∧
      validate_state (fun _ => ['s']) 600 5
          (generate_state (fun _ => ['s']) ['r'] ['u'] 5) = some ['u'] :=
  ⟨constSig_no_dot, by decide, by decide, by decide,
    verify_issue_roundtrip (fun _ => ['s']) constSig_no_dot ['r'] ['u']
      (by decide) (by decide) 5 600 5 (by decide)⟩

/-- **C6**: (a) a token whose signature part no longer matches the recomputed
signature of the payload is rejected, whatever the validation time; (b) the
genuine token itself is rejected when validated more than `ttl_seconds` after
the embedded issuance timestamp, even though its signature is valid. -/
theorem tampered_or_expired_rejected (sign : List Char → List Char)
    (hsig : ∀ p, '.' ∉ sign p) (rand user : List Char)
    (hrand : '.' ∉ rand) (huser : '.' ∉ user) (ts ttl now : Nat)
    (sig' : List Char) (hsd : '.' ∉ sig') :
    (sig' ≠ sign (rand ++ '.' :: user ++ '.' :: natToDec ts) →
        validate_state sign ttl now
          ((rand ++ '.' :: user ++ '.' :: natToDec ts) ++ '.' :: sig') =
          none) ∧
      ((now : Int) - (ts : Int) > (ttl : Int) →
        validate_state sign ttl now (generate_state sign rand user ts) =
          none) := by
  constructor
  · intro hne
    unfold validate_state
    rw [rsplitDot_append _ _ hsd]
    dsimp only
    rw [if_neg hne]
  · intro hexp
    rw [validate_generate_eq sign hsig rand user hrand huser ts ttl now,
      if_pos hexp]

/-- Witness for `tampered_or_expired_rejected`: the signer maps everything to
`"s"`, the altered signature is `"x"`, and validation happens 601 seconds
after issuance with TTL 600. -/
theorem tampered_or_expired_rejected_witness :
    (∀ p : List Char, '.' ∉ (fun _ : List Char => ['s']) p) ∧
      ('.' ∉ ['r']) ∧ ('.' ∉ ['u']) ∧ ('.' ∉ ['x']) ∧
      (['x'] ≠ (fun _ : List Char => ['s'])
        (['r'] ++ '.' :: ['u'] ++ '.' :: natToDec 5)) ∧
      (((606 : Nat) : Int) - ((5 : Nat) : Int) > ((600 : Nat) : Int)) ∧
      validate_state (fun _ => ['s']) 600 606
          ((['r'] ++ '.' :: ['u'] ++ '.' :: natToDec 5) ++ '.' :: ['x']) =
        none ∧
      validate_state (fun _ => ['s']) 600 606
          (generate_state (fun _ => ['s']) ['r'] ['u'] 5) = none :=
  ⟨constSig_no_dot, by decide, by decide, by decide, by decide, by decide,
    (tampered_or_expired_rejected (fun _ => ['s']) constSig_no_dot
      ['r'] ['u'] (by decide) (by decide) 5 600 606 ['x'] (by decide)).1
      (by decide),
    (tampered_or_expired_rejected (fun _ => ['s']) constSig_no_dot
      ['r'] ['u'] (by decide) (by decide) 5 600 606 ['x'] (by decide)).2
      (by decide)⟩

end StateTok

namespace StateTok

/-- **C9**: `validate_state` rejects (returns `None` for) every malformed
input: a state with no separator at all (`rsplit` yields one part), a payload
that does not split into exactly three dot-separated fields, or a timestamp
field that is not an integer.  Totality itself is structural: the embedding
is a total function into `Option`, mirroring the `try/except` in the code
that converts every raised exception into `None`. -/
theorem validate_state_malformed_rejected (sign : List Char → List Char)
    (ttl now : Nat) (state : List Char)
    (h : rsplitDot state = none ∨
      (∃ payload sig, rsplitDot state = some (payload, sig) ∧
        (payload.splitOn '.').length ≠ 3) ∨
      (∃ payload sig r u t, rsplitDot state = some (payload, sig) ∧
        payload.splitOn '.' = [r, u, t] ∧ parseNat? t = none)) :
    validate_state sign ttl now state = none := by
  unfold validate_state
  rcases h with h | ⟨payload, sig, h, hlen⟩ | ⟨payload, sig, r, u, t, h, hsp, hpn⟩
  · rw [h]
  · rw [h]
    dsimp only
    by_cases hs : sig = sign payload
    · rw [if_pos hs]
      rcases hsp : payload.splitOn '.' with _ | ⟨a, _ | ⟨b, _ | ⟨c, _ | ⟨d, l⟩⟩⟩⟩
      · rfl
      · rfl
      · rfl
      · rw [hsp] at hlen; simp at hlen
      · rfl
    · rw [if_neg hs]
  · rw [h]
    dsimp only
    by_cases hs : sig = sign payload
    · rw [if_pos hs, hsp]
      dsimp only
      rw [hpn]
    · rw [if_neg hs]

/-- Witness for `validate_state_malformed_rejected`: the dotless state
`"x"`. -/
theorem validate_state_malformed_rejected_witness :
    (rsplitDot ['x'] = none ∨
      (∃ payload sig, rsplitDot ['x'] = some (payload, sig) ∧
        (payload.splitOn '.').length ≠ 3) ∨
      (∃ payload sig r u t, rsplitDot ['x'] = some (payload, sig) ∧
        payload.splitOn '.' = [r, u, t] ∧ parseNat? t = none)) ∧
      validate_state (fun _ => ['s']) 600 0 ['x'] = none :=
  ⟨Or.inl (by decide),
    validate_state_malformed_rejected (fun _ => ['s']) 600 0 ['x']
      (Or.inl (by decide))⟩

end StateTok

namespace Vault

/-- Environment of the `TokenEncryptor` embedding.  The class wraps the
third-party primitives the Python code calls, as opaque functions:

* `ks`/`tagF` model the `AESGCM` primitive of the `cryptography` library in
  its structural form: GCM is CTR-mode (a nonce-derived keystream XORed onto
  the plaintext) followed by an authentication tag over nonce and message.
  The key is fixed (the encryptor holds one master key), so it is implicit in
  both functions.
* `utf8e`/`utf8d` model `str.encode("utf-8")` / `bytes.decode("utf-8")`.
* `b64e`/`b64d` model `base64.b64encode(...).decode` / `base64.b64decode`.
* `key_id` models the stable SHA-256 key fingerprint `self.key_id`.

Bytes are embedded as `Nat` with bytewise XOR. -/
structure Crypto where
  ks : List Nat → Nat → Nat
  tagF : List Nat → List Nat → List Nat
  utf8e : String → List Nat
  utf8d : List Nat → Option String
  b64e : List Nat → List Char
  b64d : List Char → Option (List Nat)
  key_id : List Char

/-- GCM tag length in bytes (the `cryptography` default, 128 bits). -/
def tagLen : Nat := 16

/-- CTR keystream for a nonce, as a byte list of the given length. -/
def keystream (E : Crypto) (nonce : List Nat) (len : Nat) : List Nat :=
  (List.range len).map (E.ks nonce)

/-- Bytewise XOR (zip-truncating; callers use equal lengths). -/
def xorBytes (a b : List Nat) : List Nat :=
  List.zipWith (fun x y => x ^^^ y) a b

/-- `AESGCM.encrypt(nonce, data, None)`: keystream-XORed body followed by the
authentication tag. -/
def aesgcm_encrypt (E : Crypto) (nonce m : List Nat) : List Nat :=
  xorBytes m (keystream E nonce m.length) ++ E.tagF nonce m

/-- `AESGCM.decrypt(nonce, data, None)`: reject inputs shorter than the tag,
recover the candidate message from the body, recompute the tag and compare;
on mismatch the library raises `InvalidTag`, embedded as `none`. -/
def aesgcm_decrypt (E : Crypto) (nonce c : List Nat) : Option (List Nat) :=
  if c.length < tagLen then none
  else if c.drop (c.length - tagLen) =
      E.tagF nonce (xorBytes (c.take (c.length - tagLen))
        (keystream E nonce (c.take (c.length - tagLen)).length)) then
    some (xorBytes (c.take (c.length - tagLen))
      (keystream E nonce (c.take (c.length - tagLen)).length))
  else none

/-- `TokenEncryptor` failures: the code wraps every exception on the decrypt
path in `TokenEncryptionError("decryption", ...)` (status 500, the spec's
`EncryptionError`). -/
inductive EncryptionError where
  | decryptionFailure
deriving DecidableEq, Repr

/-- `TokenEncryptor.encrypt` (security.py:39-62): encrypt the UTF-8 bytes of
the plaintext under a fresh random nonce (`os.urandom(12)`, passed here as a
parameter), and return base64 ciphertext, base64 nonce and the key id. -/
def encrypt (E : Crypto) (nonce : List Nat) (plaintext : String) :
    List Char × List Char × List Char :=
  (E.b64e (aesgcm_encrypt E nonce (E.utf8e plaintext)), E.b64e nonce, E.key_id)

/-- `TokenEncryptor.decrypt` (security.py:64-81): base64-decode ciphertext and
nonce, AES-GCM-decrypt, UTF-8-decode; any failure raises
`TokenEncryptionError("decryption", ...)`. -/
def decrypt (E : Crypto) (ciphertext_b64 nonce_b64 : List Char) :
    Except EncryptionError String :=
  match E.b64d ciphertext_b64 with
  | none => .error .decryptionFailure
  | some ciphertext =>
    match E.b64d nonce_b64 with
    | none => .error .decryptionFailure
    | some nonce =>
      match aesgcm_decrypt E nonce ciphertext with
      | none => .error .decryptionFailure
      | some mbytes =>
        match E.utf8d mbytes with
        | none => .error .decryptionFailure
        | some plaintext => .ok plaintext

theorem length_keystream (E : Crypto) (n : List Nat) (len : Nat) :
    (keystream E n len).length = len := by simp [keystream]

theorem length_xorBytes (a b : List Nat) :
    (xorBytes a b).length = min a.length b.length := by simp [xorBytes]

theorem xorBytes_cancel : ∀ (m k : List Nat), xorBytes (xorBytes m k) k = m.take k.length := by
  intro m
  induction m with
  | nil => intro k; simp [xorBytes]
  | cons a m ih =>
    intro k
    cases k with
    | nil => simp [xorBytes]
    | cons b k =>
      simp only [xorBytes, List.zipWith_cons_cons, List.take_cons]
      rw [show ((a ^^^ b) ^^^ b) = a from Nat.xor_cancel_right b a]
      exact congrArg _ (ih k)

theorem xorBytes_cancel' (m k : List Nat) (h : k.length = m.length) :
    xorBytes (xorBytes m k) k = m := by
  rw [xorBytes_cancel, h, List.take_length]

end Vault

namespace Vault

theorem length_aesgcm_encrypt (E : Crypto)
    (htlen : ∀ n m, (E.tagF n m).length = tagLen) (n m : List Nat) :
    (aesgcm_encrypt E n m).length = m.length + tagLen := by
  simp [aesgcm_encrypt, length_xorBytes, length_keystream, htlen]

theorem enc_take (E : Crypto) (n m : List Nat) :
    (aesgcm_encrypt E n m).take m.length = xorBytes m (keystream E n m.length) := by
  unfold aesgcm_encrypt
  exact List.take_left' (by simp [length_xorBytes, length_keystream])

theorem enc_drop (E : Crypto) (n m : List Nat) :
    (aesgcm_encrypt E n m).drop m.length = E.tagF n m := by
  unfold aesgcm_encrypt
  exact List.drop_left' (by simp [length_xorBytes, length_keystream])

/-- Decrypting a genuine ciphertext recovers the message (GCM correctness). -/
theorem aesgcm_decrypt_encrypt (E : Crypto)
    (htlen : ∀ n m, (E.tagF n m).length = tagLen) (n m : List Nat) :
    aesgcm_decrypt E n (aesgcm_encrypt E n m) = some m := by
  have hb : (xorBytes m (keystream E n m.length)).length = m.length := by
    simp [length_xorBytes, length_keystream]
  have hlen : (aesgcm_encrypt E n m).length = m.length + tagLen :=
    length_aesgcm_encrypt E htlen n m
  unfold aesgcm_decrypt
  rw [if_neg (by omega)]
  have hsub : (aesgcm_encrypt E n m).length - tagLen = m.length := by omega
  rw [hsub, enc_take, enc_drop, hb,
    xorBytes_cancel' m _ (length_keystream E n m.length), if_pos rfl]

/-- GCM authentication (idealized, tag collision-freeness assumed): decryption
succeeds only on the genuine encryption of the returned message. -/
theorem aesgcm_decrypt_genuine (E : Crypto) (n c m : List Nat)
    (h : aesgcm_decrypt E n c = some m) : c = aesgcm_encrypt E n m := by
  unfold aesgcm_decrypt at h
  by_cases h1 : c.length < tagLen
  · rw [if_pos h1] at h; exact absurd h (by simp)
  · rw [if_neg h1] at h
    by_cases h2 : c.drop (c.length - tagLen) =
        E.tagF n (xorBytes (c.take (c.length - tagLen))
          (keystream E n (c.take (c.length - tagLen)).length))
    · rw [if_pos h2] at h
      have hm : m = xorBytes (c.take (c.length - tagLen))
          (keystream E n (c.take (c.length - tagLen)).length) :=
        (Option.some_inj.mp h).symm
      have htl : (c.take (c.length - tagLen)).length = c.length - tagLen := by
        simp [List.length_take]
      have hml : m.length = c.length - tagLen := by
        rw [hm]
        simp [length_xorBytes, length_keystream]
      have hks : keystream E n m.length =
          keystream E n (c.take (c.length - tagLen)).length := by
        rw [hml, htl]
      have hbody : xorBytes m (keystream E n m.length) =
          c.take (c.length - tagLen) := by
        rw [hks, hm]
        exact xorBytes_cancel' _ _ (length_keystream E n _)
      have htag : E.tagF n m = c.drop (c.length - tagLen) := by
        rw [hm]; exact h2.symm
      unfold aesgcm_encrypt
      rw [hbody, htag]
      exact (List.take_append_drop _ c).symm
    · rw [if_neg h2] at h; exact absurd h (by simp)

/-- **C4**: for every plaintext `p`, every key (implicit in the primitive) and
every nonce, decrypting the (ciphertext, nonce) pair that `encrypt` produced
returns `p`: `decrypt(encrypt(p)) == p`. -/
theorem decrypt_encrypt (E : Crypto)
    (htlen : ∀ n m, (E.tagF n m).length = tagLen)
    (hutf8 : ∀ s, E.utf8d (E.utf8e s) = some s)
    (hb64 : ∀ bs, E.b64d (E.b64e bs) = some bs)
    (nonce : List Nat) (p : String) :
    decrypt E (encrypt E nonce p).1 (encrypt E nonce p).2.1 = .ok p := by
  unfold encrypt decrypt
  dsimp only
  rw [hb64, hb64]
  dsimp only
  rw [aesgcm_decrypt_encrypt E htlen]
  dsimp only
  rw [hutf8]

end Vault

namespace Vault

/-- Changing one entry of a list to a different value changes the list. -/
theorem set_ne (l : List Nat) (i : Nat) (hi : i < l.length) (b : Nat)
    (hb : b ≠ l.get ⟨i, hi⟩) : l.set i b ≠ l := by
  intro he
  apply hb
  have h1 : (l.set i b)[i]? = some b := by
    rw [List.getElem?_set_self']
    simp [hi]
  rw [he, List.getElem?_eq_getElem hi] at h1
  simpa [List.get_eq_getElem] using h1.symm

/-- A genuine ciphertext altered at any single byte fails GCM
authentication. -/
theorem aesgcm_decrypt_ct_flip (E : Crypto)
    (htlen : ∀ n m, (E.tagF n m).length = tagLen)
    (htinj : ∀ n₁ m₁ n₂ m₂, E.tagF n₁ m₁ = E.tagF n₂ m₂ → n₁ = n₂ ∧ m₁ = m₂)
    (n m : List Nat) (i : Nat) (hi : i < (aesgcm_encrypt E n m).length)
    (b : Nat) (hb : b ≠ (aesgcm_encrypt E n m).get ⟨i, hi⟩) :
    aesgcm_decrypt E n ((aesgcm_encrypt E n m).set i b) = none := by
  by_contra hne
  obtain ⟨m', hm'⟩ := Option.ne_none_iff_exists'.mp hne
  have hgen := aesgcm_decrypt_genuine E n _ m' hm'
  have hset : (aesgcm_encrypt E n m).set i b ≠ aesgcm_encrypt E n m :=
    set_ne _ i hi b hb
  have hlenc := length_aesgcm_encrypt E htlen n m
  have hlenc' := length_aesgcm_encrypt E htlen n m'
  have hml : m'.length = m.length := by
    have hh := congrArg List.length hgen
    rw [List.length_set, hlenc, hlenc'] at hh
    omega
  have hbl : (xorBytes m (keystream E n m.length)).length = m.length := by
    simp [length_xorBytes, length_keystream]
  by_cases hcase : i < m.length
  · have hsplit : (aesgcm_encrypt E n m).set i b =
        (xorBytes m (keystream E n m.length)).set i b ++ E.tagF n m := by
      unfold aesgcm_encrypt
      exact List.set_append_left _ _ (by rw [hbl]; exact hcase)
    have hdrop : ((aesgcm_encrypt E n m).set i b).drop m.length = E.tagF n m := by
      rw [hsplit]
      exact List.drop_left' (by rw [List.length_set, hbl])
    have hdrop' : ((aesgcm_encrypt E n m).set i b).drop m.length =
        E.tagF n m' := by
      rw [hgen, ← hml]
      exact enc_drop E n m'
    have hmm : m = m' := (htinj n m n m' (hdrop.symm.trans hdrop')).2
    rw [← hmm] at hgen
    exact hset hgen
  · push_neg at hcase
    have hsplit : (aesgcm_encrypt E n m).set i b =
        xorBytes m (keystream E n m.length) ++
          (E.tagF n m).set (i - m.length) b := by
      unfold aesgcm_encrypt
      rw [List.set_append_right _ _ (by rw [hbl]; exact hcase), hbl]
    have htake : ((aesgcm_encrypt E n m).set i b).take m.length =
        xorBytes m (keystream E n m.length) := by
      rw [hsplit]
      exact List.take_left' hbl
    have htake' : ((aesgcm_encrypt E n m).set i b).take m.length =
        xorBytes m' (keystream E n m'.length) := by
      rw [hgen, ← hml]
      exact enc_take E n m'
    have hbody : xorBytes m' (keystream E n m.length) =
        xorBytes m (keystream E n m.length) := by
      have := htake'.symm.trans htake
      rwa [hml] at this
    have hmm : m' = m := by
      have h1 := xorBytes_cancel' m' (keystream E n m.length)
        (by rw [length_keystream]; exact hml.symm)
      have h2 := xorBytes_cancel' m (keystream E n m.length)
        (length_keystream E n m.length)
      rw [← h1, hbody, h2]
    rw [hmm] at hgen
    exact hset hgen

/-- Decrypting a genuine ciphertext under any other nonce fails GCM
authentication. -/
theorem aesgcm_decrypt_nonce_flip (E : Crypto)
    (htlen : ∀ n m, (E.tagF n m).length = tagLen)
    (htinj : ∀ n₁ m₁ n₂ m₂, E.tagF n₁ m₁ = E.tagF n₂ m₂ → n₁ = n₂ ∧ m₁ = m₂)
    (n m n' : List Nat) (hne : n' ≠ n) :
    aesgcm_decrypt E n' (aesgcm_encrypt E n m) = none := by
  by_contra hcon
  obtain ⟨m', hm'⟩ := Option.ne_none_iff_exists'.mp hcon
  have hgen := aesgcm_decrypt_genuine E n' _ m' hm'
  have hml : m'.length = m.length := by
    have hh := congrArg List.length hgen
    rw [length_aesgcm_encrypt E htlen, length_aesgcm_encrypt E htlen] at hh
    omega
  have hdrop : E.tagF n m = E.tagF n' m' := by
    calc E.tagF n m = (aesgcm_encrypt E n m).drop m.length :=
          (enc_drop E n m).symm
      _ = (aesgcm_encrypt E n' m').drop m.length := by rw [← hgen]
      _ = (aesgcm_encrypt E n' m').drop m'.length := by rw [hml]
      _ = E.tagF n' m' := enc_drop E n' m'
  exact hne ((htinj n m n' m' hdrop).1.symm)

/-- Decrypting a genuine ciphertext under a wrong key fails GCM
authentication.  A different AES key is a different primitive environment
`E'`; two distinct keys give independent tag functions, idealized (like tag
injectivity) as tag disjointness: no `E`-tag ever equals an `E'`-tag.  The
rejection then holds for every nonce the wrong-key decryption uses. -/
theorem aesgcm_decrypt_wrong_key (E E' : Crypto)
    (htlen : ∀ n m, (E.tagF n m).length = tagLen)
    (hdisj : ∀ n₁ m₁ n₂ m₂, E.tagF n₁ m₁ ≠ E'.tagF n₂ m₂)
    (n m n' : List Nat) :
    aesgcm_decrypt E' n' (aesgcm_encrypt E n m) = none := by
  have hlen := length_aesgcm_encrypt E htlen n m
  unfold aesgcm_decrypt
  rw [if_neg (by omega)]
  have hsub : (aesgcm_encrypt E n m).length - tagLen = m.length := by omega
  rw [hsub, enc_drop]
  rw [if_neg (hdisj n m n' _)]

end Vault

namespace Vault

/-- **C7**: for the (ciphertext, nonce) pair produced by `encrypt`, (a)
changing any single byte of the ciphertext makes `decrypt` fail with
`EncryptionError`, (b) changing any single byte of the nonce makes `decrypt`
fail with `EncryptionError`, (c) input that does not base64-decode makes
`decrypt` fail with `EncryptionError`, and (d) decrypting the unaltered pair
under a wrong key — a second environment whose authentication tags are
disjoint from the encrypting key's, as distinct AES keys give independent tag
functions — fails with `EncryptionError`; in particular `decrypt` never
silently returns a plaintext different from the one encrypted. -/
theorem decrypt_tamper (E : Crypto)
    (htlen : ∀ n m, (E.tagF n m).length = tagLen)
    (htinj : ∀ n₁ m₁ n₂ m₂, E.tagF n₁ m₁ = E.tagF n₂ m₂ → n₁ = n₂ ∧ m₁ = m₂)
    (hb64 : ∀ bs, E.b64d (E.b64e bs) = some bs)
    (nonce : List Nat) (p : String) :
    (∀ i (hi : i < (aesgcm_encrypt E nonce (E.utf8e p)).length) (b : Nat),
        b ≠ (aesgcm_encrypt E nonce (E.utf8e p)).get ⟨i, hi⟩ →
        decrypt E (E.b64e ((aesgcm_encrypt E nonce (E.utf8e p)).set i b))
          (E.b64e nonce) = .error .decryptionFailure) ∧
      (∀ j (hj : j < nonce.length) (b : Nat), b ≠ nonce.get ⟨j, hj⟩ →
        decrypt E (E.b64e (aesgcm_encrypt E nonce (E.utf8e p)))
          (E.b64e (nonce.set j b)) = .error .decryptionFailure) ∧
      (∀ s t : List Char, E.b64d s = none ∨ E.b64d t = none →
        decrypt E s t = .error .decryptionFailure) ∧
      (∀ E' : Crypto,
        (∀ n₁ m₁ n₂ m₂, E.tagF n₁ m₁ ≠ E'.tagF n₂ m₂) →
        (∀ bs, E'.b64d (E.b64e bs) = some bs) →
        decrypt E' (E.b64e (aesgcm_encrypt E nonce (E.utf8e p)))
          (E.b64e nonce) = .error .decryptionFailure) := by
  refine ⟨?_, ?_, ?_, ?_⟩
  · intro i hi b hb
    unfold decrypt
    rw [hb64, hb64]
    dsimp only
    rw [aesgcm_decrypt_ct_flip E htlen htinj nonce (E.utf8e p) i hi b hb]
  · intro j hj b hb
    unfold decrypt
    rw [hb64, hb64]
    dsimp only
    rw [aesgcm_decrypt_nonce_flip E htlen htinj nonce (E.utf8e p)
      (nonce.set j b) (set_ne nonce j hj b hb)]
  · intro s t h
    unfold decrypt
    rcases h with h | h
    · rw [h]
    · cases hcs : E.b64d s with
      | none => rfl
      | some c => rw [h]
  · intro E' hdisj hb64'
    unfold decrypt
    rw [hb64', hb64']
    dsimp only
    rw [aesgcm_decrypt_wrong_key E E' htlen hdisj nonce (E.utf8e p) nonce]

end Vault

namespace Vault

/-- Injective 16-byte tag for the witness instance: the first cell carries an
injective encoding of (nonce, message). -/
def tagWitness (n m : List Nat) : List Nat :=
  Encodable.encode (n, m) :: List.replicate 15 0

/-- Concrete instantiation of the primitive environment used by witnesses. -/
def cryptoWitness : Crypto where
  ks := fun _ _ => 0
  tagF := tagWitness
  utf8e := fun s => s.data.map Char.toNat
  utf8d := fun l => some (String.mk (l.map Char.ofNat))
  b64e := fun bs => StateTok.natToDec (Encodable.encode bs)
  b64d := fun s => (StateTok.parseNat? s).bind fun k =>
    (Encodable.decode k : Option (List Nat))
  key_id := ['k']

theorem cryptoWitness_tagLen :
    ∀ n m, (cryptoWitness.tagF n m).length = tagLen := by
  intro n m
  simp [cryptoWitness, tagWitness, tagLen]

theorem cryptoWitness_tagInj : ∀ n₁ m₁ n₂ m₂,
    cryptoWitness.tagF n₁ m₁ = cryptoWitness.tagF n₂ m₂ →
      n₁ = n₂ ∧ m₁ = m₂ := by
  intro n₁ m₁ n₂ m₂ h
  simp only [cryptoWitness, tagWitness, List.cons.injEq] at h
  have h2 : (n₁, m₁) = (n₂, m₂) := Encodable.encode_injective h.1
  exact ⟨congrArg Prod.fst h2, congrArg Prod.snd h2⟩

theorem cryptoWitness_utf8 :
    ∀ s, cryptoWitness.utf8d (cryptoWitness.utf8e s) = some s := by
  intro s
  show some (String.mk ((s.data.map Char.toNat).map Char.ofNat)) = some s
  rw [List.map_map,
    show (Char.ofNat ∘ Char.toNat) = id from funext fun c => Char.ofNat_toNat c,
    List.map_id]

theorem cryptoWitness_b64 :
    ∀ bs, cryptoWitness.b64d (cryptoWitness.b64e bs) = some bs := by
  intro bs
  simp [cryptoWitness, StateTok.parseNat_natToDec, Encodable.encodek]

/-- Witness for `decrypt_encrypt`: the concrete environment, nonce `[1]` and
plaintext `"tok"`. -/
theorem decrypt_encrypt_witness :
    (∀ n m, (cryptoWitness.tagF n m).length = tagLen) ∧
      (∀ s, cryptoWitness.utf8d (cryptoWitness.utf8e s) = some s) ∧
      (∀ bs, cryptoWitness.b64d (cryptoWitness.b64e bs) = some bs) ∧
      decrypt cryptoWitness (encrypt cryptoWitness [1] "tok").1
        (encrypt cryptoWitness [1] "tok").2.1 = .ok "tok" :=
  ⟨cryptoWitness_tagLen, cryptoWitness_utf8, cryptoWitness_b64,
    decrypt_encrypt cryptoWitness cryptoWitness_tagLen cryptoWitness_utf8
      cryptoWitness_b64 [1] "tok"⟩

/-- The witness ciphertext for `decrypt_tamper`. -/
@[reducible] def ctW : List Nat :=
  aesgcm_encrypt cryptoWitness [1] (cryptoWitness.utf8e "t")

theorem ctW_pos : 0 < ctW.length := by
  rw [length_aesgcm_encrypt cryptoWitness cryptoWitness_tagLen]
  simp [tagLen]

/-- Tag function of the second (wrong-key) witness environment: it carries
the same injective encoding but a different constant pad, so it never
collides with `tagWitness`. -/
def tagWitness' (n m : List Nat) : List Nat :=
  Encodable.encode (n, m) :: List.replicate 15 1

/-- Second concrete environment modelling an encryptor holding a different
AES key: same transport encodings, disjoint tag function. -/
def cryptoWitness' : Crypto := { cryptoWitness with tagF := tagWitness' }

theorem cryptoWitness_tag_disj : ∀ n₁ m₁ n₂ m₂,
    cryptoWitness.tagF n₁ m₁ ≠ cryptoWitness'.tagF n₂ m₂ := by
  intro n₁ m₁ n₂ m₂ h
  simp only [cryptoWitness, cryptoWitness', tagWitness, tagWitness',
    List.cons.injEq] at h
  exact absurd h.2 (by decide)

theorem cryptoWitness'_b64 :
    ∀ bs, cryptoWitness'.b64d (cryptoWitness.b64e bs) = some bs :=
  cryptoWitness_b64

/-- Witness for `decrypt_tamper`: flip byte 0 of the ciphertext (to its
successor), flip byte 0 of the nonce `[1]` to `2`, feed the non-decodable
string `"x"`, and decrypt the genuine pair under the wrong-key environment
`cryptoWitness'`. -/
theorem decrypt_tamper_witness :
    (∀ n m, (cryptoWitness.tagF n m).length = tagLen) ∧
      (∀ n₁ m₁ n₂ m₂, cryptoWitness.tagF n₁ m₁ = cryptoWitness.tagF n₂ m₂ →
        n₁ = n₂ ∧ m₁ = m₂) ∧
      (∀ bs, cryptoWitness.b64d (cryptoWitness.b64e bs) = some bs) ∧
      (∀ n₁ m₁ n₂ m₂, cryptoWitness.tagF n₁ m₁ ≠ cryptoWitness'.tagF n₂ m₂) ∧
      (∀ bs, cryptoWitness'.b64d (cryptoWitness.b64e bs) = some bs) ∧
      decrypt cryptoWitness
          (cryptoWitness.b64e (ctW.set 0 (ctW.get ⟨0, ctW_pos⟩ + 1)))
          (cryptoWitness.b64e [1]) = .error .decryptionFailure ∧
      decrypt cryptoWitness (cryptoWitness.b64e ctW)
          (cryptoWitness.b64e (([1] : List Nat).set 0 2)) =
        .error .decryptionFailure ∧
      decrypt cryptoWitness ['x'] ['x'] = .error .decryptionFailure ∧
      decrypt cryptoWitness' (cryptoWitness.b64e ctW) (cryptoWitness.b64e [1]) =
        .error .decryptionFailure :=
  ⟨cryptoWitness_tagLen, cryptoWitness_tagInj, cryptoWitness_b64,
    cryptoWitness_tag_disj, cryptoWitness'_b64,
    (decrypt_tamper cryptoWitness cryptoWitness_tagLen cryptoWitness_tagInj
        cryptoWitness_b64 [1] "t").1 0 ctW_pos _ (Nat.succ_ne_self _),
    (decrypt_tamper cryptoWitness cryptoWitness_tagLen cryptoWitness_tagInj
        cryptoWitness_b64 [1] "t").2.1 0 (by decide) 2 (by decide),
    (decrypt_tamper cryptoWitness cryptoWitness_tagLen cryptoWitness_tagInj
        cryptoWitness_b64 [1] "t").2.2.1 ['x'] ['x'] (Or.inl (by decide)),
    (decrypt_tamper cryptoWitness cryptoWitness_tagLen cryptoWitness_tagInj
        cryptoWitness_b64 [1] "t").2.2.2 cryptoWitness' cryptoWitness_tag_disj
      cryptoWitness'_b64⟩

end Vault

namespace Lifecycle

/-- A `google_calendar_tokens` row (db/models.py `GoogleCalendarToken`),
restricted to the fields the lifecycle claims concern. -/
structure TokenRecord where
  user_id : String
  google_account_id : String
  google_email : String
  encrypted_refresh_token : String
  encryption_nonce : String
  encryption_key_id : String
  access_token_expires_at : Option Nat
  is_active : Bool
  last_error : Option String
  revoked_at : Option Nat
deriving DecidableEq, Repr

/-- `TokenRepository.get_by_user_id` (repositories.py:28-51): the active row
for a user (`.eq("user_id", u).eq("is_active", True).single()`; errors are
caught and yield `None`). -/
def get_by_user_id (db : List TokenRecord) (u : String) : Option TokenRecord :=
  db.find? (fun r => r.user_id == u && r.is_active)

/-- `TokenRepository.get_by_google_account` (repositories.py:53-77): the
active row for an external provider account. -/
def get_by_google_account (db : List TokenRecord) (g : String) :
    Option TokenRecord :=
  db.find? (fun r => r.google_account_id == g && r.is_active)

/-- `TokenRepository.create` (repositories.py:79-95): insert a row. -/
def create (db : List TokenRecord) (rec : TokenRecord) : List TokenRecord :=
  db ++ [rec]

/-- `TokenRepository.update_expiry` (repositories.py:123-145): set
`access_token_expires_at` on every row of the user. -/
def update_expiry (db : List TokenRecord) (u : String) (t : Nat) :
    List TokenRecord :=
  db.map (fun r => if r.user_id == u then
    { r with access_token_expires_at := some t } else r)

/-- `TokenRepository.mark_revoked` (repositories.py:154-176): set
`is_active := false` and `revoked_at` on every row of the user; no other
field (in particular none of the three secret fields) is touched. -/
def mark_revoked (db : List TokenRecord) (u : String) (now : Nat) :
    List TokenRecord :=
  db.map (fun r => if r.user_id == u then
    { r with is_active := false, revoked_at := some now } else r)

/-- `TokenRepository.delete` (repositories.py:178-193): remove the user's
rows. -/
def delete (db : List TokenRecord) (u : String) : List TokenRecord :=
  db.filter (fun r => !(r.user_id == u))

/-- `TokenRepository.set_error` (repositories.py:195-216): record
`last_error` on every row of the user. -/
def set_error (db : List TokenRecord) (u : String) (e : String) :
    List TokenRecord :=
  db.map (fun r => if r.user_id == u then { r with last_error := some e } else r)

/-- The service-level failures raised on the embedded paths.  The code raises
`OAuthStateError` both for state failures and for the ownership conflict
(auth/service.py:90-95); `accountConflictError` is the distinct error the
spec's taxonomy (§7) names for the conflict, included here so the claim about
it can be stated — no code path constructs it. -/
inductive AuthError where
  | oauthStateError (msg : String)
  | accountConflictError
  | tokenExpiredError (user_id reason : String)
  | calendarNotConnectedError (user_id : String)
deriving DecidableEq, Repr

/-- Observable side effects of `AuthService.handle_callback` past the
conflict check, in program order: the refresh-token encryption, the deletion
of the user's previous record on reconnect, and the creation of the new
record. -/
inductive CallbackEffect where
  | encrypted
  | deletedOld (user_id : String)
  | created (user_id : String)
deriving DecidableEq, Repr

/-- `CallbackResponse` (schemas/auth.py), restricted. -/
structure CallbackResponse where
  success : Bool
  user_id : String
  google_email : String
deriving DecidableEq, Repr

/-- The store-and-respond tail of `handle_callback` (auth/service.py:97-125):
encrypt the refresh token, build the new record (`is_active` defaults to
true), delete the prior record if the user already has one, insert, respond. -/
def handle_callback_store (db : List TokenRecord) (user_id : String)
    (google_id google_email : String) (enc : String × String × String)
    (expires_at : Option Nat) :
    List TokenRecord × List CallbackEffect × Except AuthError CallbackResponse :=
  let newRec : TokenRecord :=
    { user_id := user_id
      google_account_id := google_id
      google_email := google_email
      encrypted_refresh_token := enc.1
      encryption_nonce := enc.2.1
      encryption_key_id := enc.2.2
      access_token_expires_at := expires_at
      is_active := true
      last_error := none
      revoked_at := none }
  match get_by_user_id db user_id with
  | some _ =>
    (create (delete db user_id) newRec,
      [.encrypted, .deletedOld user_id, .created user_id],
      .ok ⟨true, user_id, google_email⟩)
  | none =>
    (create db newRec, [.encrypted, .created user_id],
      .ok ⟨true, user_id, google_email⟩)

/-- `AuthService.handle_callback` (auth/service.py:61-125).  The outcome of
`validate_state` is the `stateUser` parameter; the code-exchange and
user-info calls are assumed successful on this path and contribute
`google_id`, `google_email` and the encrypted triple `enc` produced by
`TokenEncryptor.encrypt`.  Returns the final table, the effect log (empty
when the call raises before any write) and the result. -/
def handle_callback (db : List TokenRecord) (stateUser : Option String)
    (google_id google_email : String) (enc : String × String × String)
    (expires_at : Option Nat) :
    List TokenRecord × List CallbackEffect × Except AuthError CallbackResponse :=
  match stateUser with
  | none => (db, [], .error (.oauthStateError "Invalid or expired state parameter"))
  | some user_id =>
    match get_by_google_account db google_id with
    | some existing =>
      if existing.user_id ≠ user_id then
        (db, [], .error (.oauthStateError
          "This Google account is already connected to another user"))
      else handle_callback_store db user_id google_id google_email enc expires_at
    | none => handle_callback_store db user_id google_id google_email enc expires_at

end Lifecycle

namespace Lifecycle

instance {ε α : Type} [DecidableEq ε] [DecidableEq α] :
    DecidableEq (Except ε α) := fun a b =>
  match a, b with
  | .error e, .error e' =>
    if h : e = e' then isTrue (h ▸ rfl)
    else isFalse (fun hc => h (Except.error.inj hc))
  | .ok x, .ok y =>
    if h : x = y then isTrue (h ▸ rfl)
    else isFalse (fun hc => h (Except.ok.inj hc))
  | .error _, .ok _ => isFalse (fun hc => Except.noConfusion hc)
  | .ok _, .error _ => isFalse (fun hc => Except.noConfusion hc)

/-- An active record owning provider account `"g1"` for user `"alice"`,
used by the concrete lifecycle instances. -/
def aliceRec : TokenRecord :=
  ⟨"alice", "g1", "alice@x", "ct", "n", "k", none, true, none, none⟩

/-- **C2** (counterexample to the claim as stated): with the provider account
`"g1"` actively owned by `"alice"`, completing authorization for `"bob"` on
the same account fails with `OAuthStateError` (message "This Google account
is already connected to another user"), not with a distinct
`AccountConflictError` — no such exception class exists in the code. -/
theorem handle_callback_conflict_claim_false :
    (handle_callback [aliceRec]
        (some "bob") "g1" "bob@x" ("c", "n2", "k") none).2.2 =
      .error (.oauthStateError
        "This Google account is already connected to another user") ∧
      (handle_callback [aliceRec]
          (some "bob") "g1" "bob@x" ("c", "n2", "k") none).2.2 ≠
        .error .accountConflictError := by
  decide

/-- **C2** (amended): when the provider account is already actively owned by
a different user, `handle_callback` fails with `OAuthStateError` carrying the
account-conflict message (the code reuses `OAuthStateError` rather than a
dedicated `AccountConflictError`), the token table is unchanged, and no
effect — no encryption, no delete, no create — happens on that path. -/
theorem handle_callback_conflict (db : List TokenRecord) (u : String)
    (google_id google_email : String) (enc : String × String × String)
    (expires_at : Option Nat) (ex : TokenRecord)
    (hex : get_by_google_account db google_id = some ex)
    (hne : ex.user_id ≠ u) :
    handle_callback db (some u) google_id google_email enc expires_at =
      (db, [], .error (.oauthStateError
        "This Google account is already connected to another user")) := by
  unfold handle_callback
  rw [hex]
  dsimp only
  rw [if_pos hne]

/-- Witness for `handle_callback_conflict`: account `"g1"` owned by
`"alice"`, callback for `"bob"`. -/
theorem handle_callback_conflict_witness :
    get_by_google_account [aliceRec] "g1" = some aliceRec ∧
      aliceRec.user_id ≠ "bob" ∧
      handle_callback [aliceRec]
          (some "bob") "g1" "bob@x" ("c", "n2", "k") none =
        ([aliceRec], [], .error (.oauthStateError
            "This Google account is already connected to another user")) :=
  ⟨by decide, by decide,
    handle_callback_conflict [aliceRec] "bob" "g1" "bob@x" ("c", "n2", "k")
      none aliceRec (by decide) (by decide)⟩

end Lifecycle

namespace Lifecycle

/-- The authenticated client value returned by `_get_calendar_client`. -/
structure ClientModel where
  access_token : String
deriving DecidableEq, Repr

/-- `CalendarService._get_calendar_client` (calendar/service.py:45-108): look
up the user's active record (absent → `CalendarNotConnectedError`), decrypt
the refresh token, and unconditionally call `credentials.refresh(Request())`
against the provider — there is no expiry check, no cached access token and
no per-user lock (the code notes "For now, we need to get a fresh access
token using refresh token").  The provider call's outcome is the
`refresh_result` parameter: any exception — timeouts included, the `except`
clause catches everything — records `last_error` via
`TokenRepository.set_error` and raises `TokenExpiredError`; success updates
the stored expiry when the new credentials carry one. -/
def get_calendar_client (db : List TokenRecord) (u : String)
    (refresh_result : Except String (String × Option Nat)) :
    List TokenRecord × Except AuthError ClientModel :=
  match get_by_user_id db u with
  | none => (db, .error (.calendarNotConnectedError u))
  | some _ =>
    match refresh_result with
    | .error e =>
      (set_error db u e,
        .error (.tokenExpiredError u "Failed to refresh access token"))
    | .ok (access_token, expiry) =>
      (match expiry with
        | some t => update_expiry db u t
        | none => db,
        .ok ⟨access_token⟩)

/-- **C5**: for a user with an active record, when the external refresh call
fails (timeouts included — the code catches every exception in one branch),
`_get_calendar_client` records the failure reason in `last_error` on the
user's record and raises `TokenExpiredError`; it never returns a client on a
failed refresh. -/
theorem refresh_failure_records_error (db : List TokenRecord) (u : String)
    (tok : TokenRecord) (e : String)
    (hact : get_by_user_id db u = some tok) :
    get_calendar_client db u (.error e) =
      (set_error db u e,
        .error (.tokenExpiredError u "Failed to refresh access token")) ∧
      (∀ r ∈ set_error db u e, r.user_id = u → r.last_error = some e) ∧
      ∀ c : ClientModel, (get_calendar_client db u (.error e)).2 ≠ .ok c := by
  have heq : get_calendar_client db u (.error e) =
      (set_error db u e,
        .error (.tokenExpiredError u "Failed to refresh access token")) := by
    unfold get_calendar_client
    rw [hact]
  refine ⟨heq, ?_, ?_⟩
  · intro r hr hru
    unfold set_error at hr
    rcases List.mem_map.mp hr with ⟨r0, hr0, rfl⟩
    by_cases hc : r0.user_id == u
    · simp [hc]
    · exfalso
      simp only [hc, Bool.false_eq_true, if_false] at hru
      exact absurd hru (by simpa using hc)
  · intro c hc
    rw [heq] at hc
    exact Except.noConfusion hc

/-- Witness for `refresh_failure_records_error`: `"alice"`'s active record,
refresh failing with reason `"timeout"`. -/
theorem refresh_failure_records_error_witness :
    get_by_user_id [aliceRec] "alice" = some aliceRec ∧
      (get_calendar_client [aliceRec] "alice" (.error "timeout") =
        (set_error [aliceRec] "alice" "timeout",
          .error (.tokenExpiredError "alice" "Failed to refresh access token")) ∧
        (∀ r ∈ set_error [aliceRec] "alice" "timeout",
          r.user_id = "alice" → r.last_error = some "timeout") ∧
        ∀ c : ClientModel,
          (get_calendar_client [aliceRec] "alice" (.error "timeout")).2 ≠
            .ok c) :=
  ⟨by decide,
    refresh_failure_records_error [aliceRec] "alice" aliceRec "timeout"
      (by decide)⟩

end Lifecycle

namespace Lifecycle

/-- `RevokeResponse` (schemas/auth.py), restricted. -/
structure RevokeResponse where
  success : Bool
  message : String
deriving DecidableEq, Repr

/-- `AuthService.revoke_connection` (auth/service.py:156-193): no active
record → a failure response and no change; otherwise decrypt the stored
refresh token and call Google's revocation endpoint inside `try/except` —
the `external_revoke` parameter is that combined outcome, and a failure is
only logged ("Continue anyway - we'll mark it as revoked locally") — then
`mark_revoked` locally and respond with success.  Both match arms are
deliberately identical: the local transition does not depend on the external
outcome. -/
def revoke_connection (db : List TokenRecord) (u : String)
    (external_revoke : Except String Unit) (now : Nat) :
    List TokenRecord × RevokeResponse :=
  match get_by_user_id db u with
  | none => (db, ⟨false, "No Google Calendar connection found"⟩)
  | some _ =>
    match external_revoke with
    | .error _ =>
      (mark_revoked db u now,
        ⟨true, "Google Calendar disconnected successfully"⟩)
    | .ok _ =>
      (mark_revoked db u now,
        ⟨true, "Google Calendar disconnected successfully"⟩)

/-- **C8**: for a user with an active record, `revoke_connection` performs
the local revocation regardless of the external call's outcome: the user's
rows get `is_active := false` and `revoked_at` set, and the three encrypted
secret fields of every row are left in place (never deleted on revoke). -/
theorem revoke_marks_locally (db : List TokenRecord) (u : String)
    (tok : TokenRecord) (outcome : Except String Unit) (now : Nat)
    (hact : get_by_user_id db u = some tok) :
    revoke_connection db u outcome now =
      (mark_revoked db u now,
        ⟨true, "Google Calendar disconnected successfully"⟩) ∧
      (∀ r ∈ mark_revoked db u now, r.user_id = u →
        r.is_active = false ∧ r.revoked_at = some now) ∧
      (mark_revoked db u now).map (fun r => r.encrypted_refresh_token) =
        db.map (fun r => r.encrypted_refresh_token) ∧
      (mark_revoked db u now).map (fun r => r.encryption_nonce) =
        db.map (fun r => r.encryption_nonce) ∧
      (mark_revoked db u now).map (fun r => r.encryption_key_id) =
        db.map (fun r => r.encryption_key_id) := by
  refine ⟨?_, ?_, ?_, ?_, ?_⟩
  · unfold revoke_connection
    rw [hact]
    cases outcome <;> rfl
  · intro r hr hru
    unfold mark_revoked at hr
    rcases List.mem_map.mp hr with ⟨r0, hr0, rfl⟩
    by_cases hc : r0.user_id == u
    · simp [hc]
    · exfalso
      simp only [hc, Bool.false_eq_true, if_false] at hru
      exact absurd hru (by simpa using hc)
  · unfold mark_revoked
    rw [List.map_map]
    exact List.map_congr_left fun r _ => by by_cases hc : r.user_id = u <;> simp [hc]
  · unfold mark_revoked
    rw [List.map_map]
    exact List.map_congr_left fun r _ => by by_cases hc : r.user_id = u <;> simp [hc]
  · unfold mark_revoked
    rw [List.map_map]
    exact List.map_congr_left fun r _ => by by_cases hc : r.user_id = u <;> simp [hc]

/-- Witness for `revoke_marks_locally`: `"alice"`'s active record, external
revocation failing. -/
theorem revoke_marks_locally_witness :
    get_by_user_id [aliceRec] "alice" = some aliceRec ∧
      (revoke_connection [aliceRec] "alice" (.error "google unreachable") 99 =
        (mark_revoked [aliceRec] "alice" 99,
          ⟨true, "Google Calendar disconnected successfully"⟩) ∧
        (∀ r ∈ mark_revoked [aliceRec] "alice" 99, r.user_id = "alice" →
          r.is_active = false ∧ r.revoked_at = some 99) ∧
        (mark_revoked [aliceRec] "alice" 99).map
            (fun r => r.encrypted_refresh_token) =
          [aliceRec].map (fun r => r.encrypted_refresh_token) ∧
        (mark_revoked [aliceRec] "alice" 99).map (fun r => r.encryption_nonce) =
          [aliceRec].map (fun r => r.encryption_nonce) ∧
        (mark_revoked [aliceRec] "alice" 99).map
            (fun r => r.encryption_key_id) =
          [aliceRec].map (fun r => r.encryption_key_id)) :=
  ⟨by decide,
    revoke_marks_locally [aliceRec] "alice" aliceRec
      (.error "google unreachable") 99 (by decide)⟩

end Lifecycle

namespace Lifecycle

/-- Number of outbound `credentials.refresh(Request())` calls a single
`_get_calendar_client` invocation makes: one whenever the user has an active
record — the code calls `credentials.refresh` unconditionally, with no expiry
check, no access-token cache and no per-user lock (calendar/service.py:76-95,
"For now, we need to get a fresh access token using refresh token") — and
zero only when the lookup fails before reaching the refresh. -/
def refresh_calls_of_request (db : List TokenRecord) (u : String) : Nat :=
  match get_by_user_id db u with
  | none => 0
  | some _ => 1

/-- `k` back-to-back requests for a usable access credential for user `u`,
each running `_get_calendar_client` to completion (with the provider refresh
succeeding) before the next starts — the schedule most favourable to the
claim, since interleaving the unlocked code cannot lower the number of
outbound calls.  Returns the final table and the total number of outbound
refresh calls. -/
def process_requests (u : String) (ok : String × Option Nat) :
    Nat → List TokenRecord → List TokenRecord × Nat
  | 0, db => (db, 0)
  | k + 1, db =>
    let calls := refresh_calls_of_request db u
    let step := get_calendar_client db u (.ok ok)
    let rest := process_requests u ok k step.1
    (rest.1, calls + rest.2)

/-- **C10** (the code contradicts the claim): for a user with an active
record whose access credential is expired (`access_token_expires_at` in the
past), two requests trigger two outbound refresh calls, not exactly one —
`_get_calendar_client` refreshes unconditionally on every call and holds no
per-user exclusive section, so refreshes are neither deduplicated nor
serialized. -/
theorem two_requests_two_refresh_calls :
    (process_requests "alice" ("new-access", some 100) 2
        [⟨"alice", "g1", "alice@x", "ct", "n", "k", some 0, true, none,
          none⟩]).2 = 2 := by
  decide

end Lifecycle
